import Mathlib

/-!
Verification of the ad-preview staging tool backend.

Shallow embedding of the JavaScript sources:
- the ZIP extractor service (extractZip, getFileType, normalizeFilePath),
- the GitHub deployment service (sanitizePath),
- the API route handlers (POST /clients, POST /clients/:id/campaigns,
  POST /generate-preview, POST /generate-batch, GET /previews) together
  with the creative-name parser (parseCreativeName) and the grouping
  function (groupCreativesBySize).

Strings are modelled through their character lists; JS regular-expression
matching is embedded as explicit leftmost-scan matchers with the same
greedy/backtracking behaviour as the concrete patterns in the source.
JS toLowerCase and toUpperCase are modelled on the ASCII range; every
character class appearing in the sources is ASCII, so the difference is
immaterial for the stated properties.
-/

namespace AdPreview

/-! ## Character helpers -/

/-- Models JS String.prototype.toLowerCase on the ASCII range. -/
def lowerC (c : Char) : Char :=
  if 65 ≤ c.toNat ∧ c.toNat ≤ 90 then Char.ofNat (c.toNat + 32) else c

/-- Models JS String.prototype.toUpperCase on the ASCII range. -/
def upperC (c : Char) : Char :=
  if 97 ≤ c.toNat ∧ c.toNat ≤ 122 then Char.ofNat (c.toNat - 32) else c

/-- Character class a-z. -/
def isLowerAlpha (c : Char) : Bool := decide (97 ≤ c.toNat ∧ c.toNat ≤ 122)

/-- Character class A-Z. -/
def isUpperAlpha (c : Char) : Bool := decide (65 ≤ c.toNat ∧ c.toNat ≤ 90)

/-- Character class 0-9, as in the regex token for a digit. -/
def isDigitC (c : Char) : Bool := decide (48 ≤ c.toNat ∧ c.toNat ≤ 57)

/-- Character class A-Z with the ignore-case flag, hence any ASCII letter. -/
def isAlphaC (c : Char) : Bool := isLowerAlpha c || isUpperAlpha c

/-- The separator class used by the locale patterns: underscore or hyphen. -/
def isSepC (c : Char) : Bool := c == '_' || c == '-'

/-! ## Generic list-of-characters utilities shared by several handlers -/

/-- Tests whether the second list starts with the first one. -/
def startsWithL : List Char → List Char → Bool
  | [], _ => true
  | _ :: _, [] => false
  | p :: ps, c :: cs => p == c && startsWithL ps cs

/-- Models JS String.prototype.includes: substring occurrence test. -/
def hasSeg (pat : List Char) : List Char → Bool
  | [] => startsWithL pat []
  | c :: cs => startsWithL pat (c :: cs) || hasSeg pat cs

/-! ## sanitizePath, from the GitHub service

JS source:
  input.toLowerCase()
       .replace the class complement of a-z 0-9 hyphen underscore slash by a hyphen,
       .replace every run of hyphens by one hyphen,
       .replace one leading and one trailing hyphen by nothing. -/

/-- The character class kept untouched by sanitizePath. -/
def allowedSanChar (c : Char) : Bool :=
  isLowerAlpha c || isDigitC c || c == '-' || c == '_' || c == '/'

/-- One character of the global class-complement replacement. -/
def sanChar (c : Char) : Char := if allowedSanChar c then c else '-'

/-- Models the global replacement of hyphen runs by a single hyphen.
The flag records whether the previously emitted character was a hyphen. -/
def squashDashes : Bool → List Char → List Char
  | _, [] => []
  | prev, c :: cs =>
    if c = '-' then
      if prev then squashDashes true cs else '-' :: squashDashes true cs
    else c :: squashDashes false cs

/-- Models the anchored leading-hyphen alternative of the final replacement:
it removes at most one leading hyphen. -/
def dropLeadDash : List Char → List Char
  | [] => []
  | c :: cs => if c = '-' then cs else c :: cs

/-- Models the anchored trailing-hyphen alternative of the final replacement:
it removes at most one trailing hyphen. -/
def dropTailDash (cs : List Char) : List Char := (dropLeadDash cs.reverse).reverse

/-- The sanitizePath pipeline on character lists. -/
def sanitizeChars (cs : List Char) : List Char :=
  dropTailDash (dropLeadDash (squashDashes false ((cs.map lowerC).map sanChar)))

/-- Models sanitizePath from the GitHub service. -/
def sanitizePath (s : String) : String := String.mk (sanitizeChars s.data)

/-! ## The ZIP extractor service

Models extractZip, getFileType and normalizeFilePath from the zip
processor module. A ZipEntry abstracts one adm-zip archive entry: its
name, its directory flag, and the two content views the service can ask
the library for (base64 rendering via getData, text via readAsText). -/

/-- The final path segment of a slash-separated name, after discarding
trailing slashes; models the Node posix basename computation used by the
hidden-file check. -/
def lastSegmentAux (cs : List Char) : List Char :=
  let noTail := (cs.reverse.dropWhile (fun c => c == '/')).reverse
  (noTail.reverse.takeWhile (fun c => c != '/')).reverse

/-- Models the Node path.basename call. -/
def jsBasename (s : String) : String := String.mk (lastSegmentAux s.data)

/-- Models the Node path.extname call: the suffix of the base name from its
last dot, empty when there is no dot or when the only dot leads the name
(the two-dot segment is the remaining Node special case). -/
def jsExtname (s : String) : String :=
  let base := lastSegmentAux s.data
  let afterDotRev := base.reverse.takeWhile (fun c => c != '.')
  if afterDotRev.length = base.length then ""
  else if afterDotRev.length + 1 = base.length then ""
  else if base = ['.', '.'] then ""
  else String.mk ('.' :: afterDotRev.reverse)

/-- Models normalizeFilePath: strip one leading run of slashes or
backslashes, then turn every backslash into a slash. -/
def normalizeFilePath (s : String) : String :=
  String.mk ((s.data.dropWhile (fun c => c == '/' || c == '\\')).map
    (fun c => if c = '\\' then '/' else c))

/-- One archive entry as the extractor sees it. -/
structure ZipEntry where
  entryName : String
  isDirectory : Bool
  dataBase64 : String
  dataText : String
deriving DecidableEq

/-- The extractor output unit, as documented in the data model. -/
structure FileRecord where
  path : String
  content : String
  encoding : String
  type : String
deriving DecidableEq

/-- The fixed binary allow-list from the extractor source. -/
def binaryExtensions : List String :=
  [".png", ".jpg", ".jpeg", ".gif", ".webp", ".svg", ".ico",
   ".mp4", ".webm", ".mp3", ".wav", ".ogg",
   ".woff", ".woff2", ".ttf", ".eot", ".otf",
   ".pdf", ".zip", ".exe", ".bin"]

/-- Models getFileType: the extension-to-category table of the extractor. -/
def getFileType (ext : String) : String :=
  if ext = ".html" ∨ ext = ".htm" then "html"
  else if ext = ".css" then "css"
  else if ext = ".js" ∨ ext = ".mjs" then "javascript"
  else if ext ∈ [".png", ".jpg", ".jpeg", ".gif", ".webp", ".svg", ".ico"] then "image"
  else if ext ∈ [".woff", ".woff2", ".ttf", ".eot", ".otf"] then "font"
  else if ext = ".json" then "json"
  else if ext = ".xml" then "xml"
  else if ext ∈ [".mp4", ".webm"] then "video"
  else if ext ∈ [".mp3", ".wav", ".ogg"] then "audio"
  else "other"

/-- The macOS resource-fork marker the extractor filters on. -/
def macosMarker : List Char := ['_', '_', 'M', 'A', 'C', 'O', 'S', 'X']

/-- The filter applied inside the extraction loop: directories are skipped,
hidden base names are skipped, names holding the macOS marker are skipped. -/
def keepEntry (e : ZipEntry) : Bool :=
  !e.isDirectory
    && !(startsWithL ['.'] (lastSegmentAux e.entryName.data))
    && !(hasSeg macosMarker e.entryName.data)

/-- The lower-cased extension of an entry, as computed in the loop. -/
def extLower (e : ZipEntry) : String := String.mk ((jsExtname e.entryName).data.map lowerC)

/-- The binary classification test of the loop. -/
def isBinaryEntry (e : ZipEntry) : Bool := binaryExtensions.contains (extLower e)

/-- The record pushed for one kept entry. -/
def mkFileRecord (e : ZipEntry) : FileRecord :=
  if isBinaryEntry e then
    { path := normalizeFilePath e.entryName, content := e.dataBase64,
      encoding := "base64", type := getFileType (extLower e) }
  else
    { path := normalizeFilePath e.entryName, content := e.dataText,
      encoding := "utf-8", type := getFileType (extLower e) }

/-- The message of the EmptyArchive failure thrown by validateStructure. -/
def emptyArchiveMsg : String := "ZIP file is empty or contains no valid files"

/-- Models extractZip: filter the entries in archive order, build one
record per survivor, and fail when no entry survives. -/
def extractZip (entries : List ZipEntry) : Except String (List FileRecord) :=
  let files := (entries.filter keepEntry).map mkFileRecord
  if files.isEmpty then Except.error emptyArchiveMsg else Except.ok files

/-! ## The creative-name parser of the API routes

parseCreativeName runs three JS regular expressions. They are embedded as
leftmost scans with the same greedy backtracking the host engine performs:
- the size pattern: two digit groups of two to four digits joined by the
  letter x, ignore-case;
- the first locale pattern: a separator, a two-letter code optionally
  extended by a separator and two more letters, then a separator;
- the second locale pattern: the same but anchored at the end of the
  string, used only when the first finds no match anywhere. -/

/-- Take exactly n digits from the front, or fail. Trying lengths in the
order four, three, two reproduces the greedy quantifier with backtracking. -/
def takeDigits : Nat → List Char → Option (List Char × List Char)
  | 0, cs => some ([], cs)
  | _ + 1, [] => none
  | n + 1, c :: cs =>
    if isDigitC c then (takeDigits n cs).map (fun p => (c :: p.1, p.2)) else none

/-- Decimal value of a digit group, as parseInt reads it. -/
def digitsToNat (ds : List Char) : Nat := ds.foldl (fun a c => a * 10 + (c.toNat - 48)) 0

/-- First applicable alternative, in order. -/
def firstSome {α β : Type} (f : α → Option β) : List α → Option β
  | [] => none
  | a :: as => match f a with | some b => some b | none => firstSome f as

/-- Backtracking order of the two greedy digit quantifiers. -/
def sizeLenPairs : List (Nat × Nat) :=
  [(4, 4), (4, 3), (4, 2), (3, 4), (3, 3), (3, 2), (2, 4), (2, 3), (2, 2)]

/-- Try the size pattern at the current position with fixed group widths:
l1 digits, the letter x in either case, l2 digits. -/
def trySizeLens (cs : List Char) (l1 l2 : Nat) : Option (List Char × Char × List Char) :=
  match takeDigits l1 cs with
  | none => none
  | some (ds1, r1) =>
    match r1 with
    | [] => none
    | x :: r2 =>
      if x = 'x' ∨ x = 'X' then
        match takeDigits l2 r2 with
        | none => none
        | some (ds2, _) => some (ds1, x, ds2)
      else none

/-- Try the size pattern at the current position. -/
def trySizeAt (cs : List Char) : Option (List Char × Char × List Char) :=
  firstSome (fun p => trySizeLens cs p.1 p.2) sizeLenPairs

/-- Leftmost match of the size pattern: the characters before the match
and the matched groups. -/
def findSizeSplit : List Char → Option (List Char × (List Char × Char × List Char))
  | [] => none
  | c :: cs =>
    match trySizeAt (c :: cs) with
    | some m => some ([], m)
    | none => (findSizeSplit cs).map (fun p => (c :: p.1, p.2))

/-- Try the first locale pattern at the current position; the result is the
captured group. The engine first tries the optional second code and falls
back to the bare two-letter code when the closing separator is missing. -/
def tryLoc1 : List Char → Option (List Char)
  | s :: a :: b :: rest =>
    if isSepC s && isAlphaC a && isAlphaC b then
      match rest with
      | s2 :: c :: d :: s3 :: _ =>
        if isSepC s2 && isAlphaC c && isAlphaC d && isSepC s3 then some [a, b, s2, c, d]
        else if isSepC s2 then some [a, b] else none
      | s2 :: _ => if isSepC s2 then some [a, b] else none
      | [] => none
    else none
  | _ => none

/-- Leftmost match of the first locale pattern: characters before the
leading separator, and the captured group. -/
def findLoc1 : List Char → Option (List Char × List Char)
  | [] => none
  | c :: cs =>
    match tryLoc1 (c :: cs) with
    | some g => some ([], g)
    | none => (findLoc1 cs).map (fun p => (c :: p.1, p.2))

/-- Try the end-anchored locale pattern at the current position: the whole
remaining input must be the separator plus the code. -/
def tryLoc2 : List Char → Option (List Char)
  | [s, a, b] => if isSepC s && isAlphaC a && isAlphaC b then some [a, b] else none
  | [s, a, b, s2, c, d] =>
    if isSepC s && isAlphaC a && isAlphaC b then
      if isSepC s2 && isAlphaC c && isAlphaC d then some [a, b, s2, c, d] else none
    else none
  | _ => none

/-- Leftmost match of the end-anchored locale pattern. -/
def findLoc2 : List Char → Option (List Char × List Char)
  | [] => none
  | c :: cs =>
    match tryLoc2 (c :: cs) with
    | some g => some ([], g)
    | none => (findLoc2 cs).map (fun p => (c :: p.1, p.2))

/-- The locale lookup of parseCreativeName: first pattern, else the
end-anchored one. -/
def localeSearch (cs : List Char) : Option (List Char × List Char) :=
  match findLoc1 cs with
  | some p => some p
  | none => findLoc2 cs

/-- Models JS String.prototype.replace with a plain string pattern: remove
the first occurrence of pat. -/
def removeFirstOcc (pat : List Char) : List Char → List Char
  | [] => []
  | c :: cs =>
    if startsWithL pat (c :: cs) then (c :: cs).drop pat.length
    else c :: removeFirstOcc pat cs

/-- Ignore-case test that the second list starts with the first one. -/
def startsWithCI : List Char → List Char → Bool
  | [], _ => true
  | _ :: _, [] => false
  | p :: ps, c :: cs => lowerC p == lowerC c && startsWithCI ps cs

/-- Match length of the built locale-removal pattern (an optional separator
followed by the captured code, ignore-case) at the current position. -/
def locRemoveLen (g : List Char) (cs : List Char) : Option Nat :=
  match cs with
  | [] => none
  | c :: rest =>
    if isSepC c && startsWithCI g rest then some (g.length + 1)
    else if startsWithCI g (c :: rest) then some g.length
    else none

/-- Remove the first match of the built locale-removal pattern. -/
def removeLocFirst (g : List Char) : List Char → List Char
  | [] => []
  | c :: cs =>
    match locRemoveLen g (c :: cs) with
    | some n => (c :: cs).drop n
    | none => c :: removeLocFirst g cs

/-- Global replacement of separator runs by a single underscore. -/
def squashSepsU : Bool → List Char → List Char
  | _, [] => []
  | prev, c :: cs =>
    if isSepC c then
      if prev then squashSepsU true cs else '_' :: squashSepsU true cs
    else c :: squashSepsU false cs

/-- Global removal of the leading separator run and the trailing one. -/
def trimSeps (cs : List Char) : List Char :=
  ((cs.dropWhile (fun c => isSepC c)).reverse.dropWhile (fun c => isSepC c)).reverse

/-- The result record of parseCreativeName. -/
structure ParsedName where
  width : Option Nat
  height : Option Nat
  locale : String
  baseName : String
  sizeStr : Option String
deriving DecidableEq, Repr

/-- Models parseCreativeName from the API routes. -/
def parseCreativeName (name : String) : ParsedName :=
  let cs := name.data
  let sizeM := findSizeSplit cs
  let locM := localeSearch cs
  let b1 := match sizeM with
    | some (_, ds1, x, ds2) => removeFirstOcc (ds1 ++ [x] ++ ds2) cs
    | none => cs
  let b2 := match locM with
    | some (_, g) => removeLocFirst g b1
    | none => b1
  let b3 := trimSeps (squashSepsU false b2)
  { width := sizeM.map (fun p => digitsToNat p.2.1)
    height := sizeM.map (fun p => digitsToNat p.2.2.2)
    locale := match locM with
      | some (_, g) => String.mk (g.map upperC)
      | none => "Default"
    baseName := if b3.isEmpty then "Creative" else String.mk b3
    sizeStr := sizeM.map (fun p =>
      toString (digitsToNat p.2.1) ++ "×" ++ toString (digitsToNat p.2.2.2)) }

/-! ## Slug helpers of the route handlers -/

/-- Lower-case letters and digits, the class kept by the slug replacements. -/
def isAlnumLower (c : Char) : Bool := isLowerAlpha c || isDigitC c

/-- Global replacement of runs outside a-z0-9 by a single hyphen. -/
def squashNonAlnum : Bool → List Char → List Char
  | _, [] => []
  | prev, c :: cs =>
    if isAlnumLower c then c :: squashNonAlnum false cs
    else if prev then squashNonAlnum true cs
    else '-' :: squashNonAlnum true cs

/-- The creative slug used for target paths and grouped entries: lower-case
and collapse non-alphanumeric runs to a hyphen, with no edge trimming. -/
def slugNoTrim (s : String) : String := String.mk (squashNonAlnum false (s.data.map lowerC))

/-- The client and campaign slug: as slugNoTrim, then one leading and one
trailing hyphen removed by the anchored replacement. -/
def jsSlug (s : String) : String :=
  String.mk (dropTailDash (dropLeadDash (squashNonAlnum false (s.data.map lowerC))))

/-- ASCII whitespace, for the fallback target-path replacement. -/
def isSpaceC (c : Char) : Bool :=
  c == ' ' || c == '\t' || c == '\n' || c == '\r' || c == '\x0b' || c == '\x0c'

/-- Global replacement of whitespace runs by a single hyphen. -/
def squashSpaces : Bool → List Char → List Char
  | _, [] => []
  | prev, c :: cs =>
    if isSpaceC c then
      if prev then squashSpaces true cs else '-' :: squashSpaces true cs
    else c :: squashSpaces false cs

/-! ## The in-memory server state and the route handlers

The handlers mutate three module-level containers: the preview list, the
client list, and the campaign table keyed by client id. The table is
embedded as an insertion-ordered association list, which is the JS object
semantics for the non-index string keys used here. Effectful inputs of a
handler (disk lookup, the extract-generate-deploy chain against the
external services, fresh identifiers, clock reads) are passed in as
explicit outcome records. -/

/-- A client row. -/
structure Client where
  id : String
  name : String
  slug : String
deriving DecidableEq

/-- A campaign row. -/
structure Campaign where
  id : String
  name : String
  slug : String
  clientId : String
  createdAt : String
deriving DecidableEq

/-- A preview record, created after a successful deployment. -/
structure Preview where
  id : String
  creativeName : String
  folderPath : String
  description : String
  clientName : String
  clientId : String
  campaignId : String
  url : String
  status : String
  createdAt : String
deriving DecidableEq

/-- The three in-memory containers of the routes module. -/
structure ServerState where
  previews : List Preview
  clients : List Client
  campaigns : List (String × List Campaign)
deriving DecidableEq

/-- The seeded client list from the source. -/
def initialClients : List Client :=
  [⟨"coca-cola", "Coca-Cola", "coca-cola"⟩,
   ⟨"verizon", "Verizon", "verizon"⟩,
   ⟨"google", "Google", "google"⟩,
   ⟨"meta", "Meta", "meta"⟩,
   ⟨"amazon", "Amazon", "amazon"⟩,
   ⟨"nike", "Nike", "nike"⟩,
   ⟨"apple", "Apple", "apple"⟩]

/-- The state at process start. -/
def initialState : ServerState := ⟨[], initialClients, []⟩

/-- The campaign list of one client, empty when the key is absent. -/
def campaignsOf (s : ServerState) (cid : String) : List Campaign :=
  ((s.campaigns.find? (fun p => p.1 == cid)).map (fun p => p.2)).getD []

/-- Store a campaign list under a client key, keeping insertion order. -/
def setCampaigns (s : ServerState) (cid : String) (l : List Campaign) : ServerState :=
  if s.campaigns.any (fun p => p.1 == cid) then
    { s with campaigns := s.campaigns.map (fun p => if p.1 == cid then (cid, l) else p) }
  else { s with campaigns := s.campaigns ++ [(cid, l)] }

/-- Response of the client-creation route. -/
inductive ClientResp where
  | err (msg : String)
  | ok (c : Client)
deriving DecidableEq

/-- Models the POST clients handler: empty name rejected, slug derived,
duplicate id rejected, otherwise the new client is pushed. -/
def postClients (s : ServerState) (name : String) : ClientResp × ServerState :=
  if name = "" then (ClientResp.err "Client name is required", s)
  else
    let slug := jsSlug name
    if s.clients.any (fun c => c.id == slug) then (ClientResp.err "Client already exists", s)
    else
      let c : Client := { id := slug, name := name, slug := slug }
      (ClientResp.ok c, { s with clients := s.clients ++ [c] })

/-- Response of the campaign-creation route. -/
inductive CampaignResp where
  | err (msg : String)
  | ok (c : Campaign)
deriving DecidableEq

/-- Models the POST campaigns handler for one client. -/
def postCampaign (s : ServerState) (clientId name now : String) : CampaignResp × ServerState :=
  if name = "" then (CampaignResp.err "Campaign name is required", s)
  else
    let slug := jsSlug name
    let cur := campaignsOf s clientId
    if cur.any (fun c => c.slug == slug) then
      (CampaignResp.err "Campaign already exists for this client", s)
    else
      let camp : Campaign := { id := clientId ++ "-" ++ slug, name := name, slug := slug,
                               clientId := clientId, createdAt := now }
      (CampaignResp.ok camp, setCampaigns s clientId (cur ++ [camp]))

/-- Equality of embedded fallible outcomes is decidable. -/
instance {ε α : Type} [DecidableEq ε] [DecidableEq α] : DecidableEq (Except ε α) := fun a b =>
  match a, b with
  | Except.error e, Except.error f => decidable_of_iff (e = f) (by simp)
  | Except.error _, Except.ok _ => Decidable.isFalse (by simp)
  | Except.ok _, Except.error _ => Decidable.isFalse (by simp)
  | Except.ok x, Except.ok y => decidable_of_iff (x = y) (by simp)

/-- Request body of the single preview-generation route; absent optional
fields are the empty string, which is what the JS falsiness tests see. -/
structure PreviewReq where
  fileId : String
  creativeName : String
  folderPath : String
  description : String
  clientName : String
  clientId : String
  campaignId : String
deriving DecidableEq

/-- Outcomes of the effectful parts of one preview generation: the disk
check for the uploaded ZIP, the extract-generate-deploy chain (error
message or deployed URL), the fresh identifier, and the clock reading. -/
structure CallEnv where
  fileOnDisk : Bool
  pipeline : Except String String
  freshId : String
  now : String
deriving DecidableEq

/-- Response of the preview-generation route. -/
inductive PrevResp where
  | badRequest (msg : String)
  | notFound (msg : String)
  | serverErr (msg : String)
  | ok (url : String) (p : Preview)
deriving DecidableEq

/-- The client-name fallback chain of the handler. -/
def resolveClientName (s : ServerState) (req : PreviewReq) : String :=
  if req.clientName ≠ "" then req.clientName
  else
    match s.clients.find? (fun c => c.id == req.clientId) with
    | some c => c.name
    | none => ""

/-- The target-path computation of the handler: explicit folder path, else
the client/campaign/creative triple when both lookups succeed, else the
lower-cased creative name with whitespace runs dashed. -/
def computeTargetPath (s : ServerState) (req : PreviewReq) : String :=
  let viaCc : Option String :=
    if req.folderPath = "" ∧ req.clientId ≠ "" ∧ req.campaignId ≠ "" then
      match s.clients.find? (fun c => c.id == req.clientId),
            (campaignsOf s req.clientId).find? (fun c => c.id == req.campaignId) with
      | some cl, some cam => some (cl.slug ++ "/" ++ cam.slug ++ "/" ++ slugNoTrim req.creativeName)
      | _, _ => none
    else none
  if req.folderPath ≠ "" then req.folderPath
  else
    match viaCc with
    | some t => t
    | none => String.mk (squashSpaces false (req.creativeName.data.map lowerC))

/-- The preview record built by the handler after a successful deploy. -/
def builtPreview (s : ServerState) (req : PreviewReq) (env : CallEnv) (url : String) : Preview :=
  { id := env.freshId, creativeName := req.creativeName,
    folderPath := computeTargetPath s req, description := req.description,
    clientName := resolveClientName s req, clientId := req.clientId,
    campaignId := req.campaignId, url := url, status := "ready", createdAt := env.now }

/-- Models the POST generate-preview handler. -/
def generatePreview (s : ServerState) (req : PreviewReq) (env : CallEnv) :
    PrevResp × ServerState :=
  if req.fileId = "" ∨ req.creativeName = "" then
    (PrevResp.badRequest "Missing required fields: fileId and creativeName are required", s)
  else if !env.fileOnDisk then (PrevResp.notFound "Uploaded file not found", s)
  else
    match env.pipeline with
    | Except.error msg => (PrevResp.serverErr msg, s)
    | Except.ok url =>
      (PrevResp.ok url (builtPreview s req env url),
       { s with previews := builtPreview s req env url :: s.previews })

/-! ## The batch route -/

/-- One uploaded file reference in the batch request body. -/
structure FileRef where
  fileId : String
  filename : String
deriving DecidableEq

/-- Outcomes of the effectful parts for one batch file. -/
structure FileEnv where
  onDisk : Bool
  pipeline : Except String String
  freshId : String
  now : String
deriving DecidableEq

/-- One success row of the batch response. -/
structure BatchOkItem where
  fileId : String
  filename : String
  creativeName : String
  previewUrl : String
deriving DecidableEq

/-- One error row of the batch response. -/
structure BatchErrItem where
  fileId : String
  filename : String
  error : String
deriving DecidableEq

/-- The batch request body, with the per-file outcome records attached to
their file references. -/
structure BatchReq where
  files : List (FileRef × FileEnv)
  description : String
  clientId : String
  campaignId : String
deriving DecidableEq

/-- Models the basename call with a zip-suffix argument: the suffix is
stripped only when it is a proper suffix of the base name. -/
def stripZipSuffix (s : String) : String :=
  let base := (jsBasename s).data
  if base.length > 4 ∧ base.drop (base.length - 4) = ['.', 'z', 'i', 'p'] then
    String.mk (base.take (base.length - 4))
  else String.mk base

/-- The request-scoped data the batch loop body reads. -/
structure BatchCtx where
  client : Client
  campaign : Campaign
  description : String
  clientId : String
  campaignId : String
deriving DecidableEq

/-- The preview record built for one successful batch file. -/
def jobPreview (ctx : BatchCtx) (f : FileRef) (env : FileEnv) (url : String) : Preview :=
  let creativeName := stripZipSuffix f.filename
  { id := env.freshId, creativeName := creativeName,
    folderPath := ctx.client.slug ++ "/" ++ ctx.campaign.slug ++ "/" ++ slugNoTrim creativeName,
    description := ctx.description, clientName := ctx.client.name,
    clientId := ctx.clientId, campaignId := ctx.campaignId,
    url := url, status := "ready", createdAt := env.now }

/-- The outcome of one iteration of the batch loop: either the error row
pushed for this file, or the success row plus the preview record. -/
def jobOutcome (ctx : BatchCtx) (j : FileRef × FileEnv) :
    Except BatchErrItem (BatchOkItem × Preview) :=
  if !j.2.onDisk then Except.error ⟨j.1.fileId, j.1.filename, "File not found"⟩
  else
    match j.2.pipeline with
    | Except.error msg => Except.error ⟨j.1.fileId, j.1.filename, msg⟩
    | Except.ok url =>
      Except.ok (⟨j.1.fileId, j.1.filename, stripZipSuffix j.1.filename, url⟩,
        jobPreview ctx j.1 j.2 url)

/-- The sequential batch loop: one full pipeline per file, errors recorded
and iteration continued, previews pushed to the front on success. -/
def batchLoop (ctx : BatchCtx) : List (FileRef × FileEnv) → ServerState →
    List BatchOkItem × List BatchErrItem × ServerState
  | [], s => ([], [], s)
  | j :: rest, s =>
    match jobOutcome ctx j with
    | Except.error e =>
      let out := batchLoop ctx rest s
      (out.1, e :: out.2.1, out.2.2)
    | Except.ok (r, p) =>
      let out := batchLoop ctx rest { s with previews := p :: s.previews }
      (r :: out.1, out.2.1, out.2.2)

/-- Response of the batch route. -/
inductive BatchResp where
  | badRequest (msg : String)
  | ok (campaignUrl : String) (processed failed : Nat)
      (results : List BatchOkItem) (errors : List BatchErrItem)
deriving DecidableEq

/-- The repository coordinates read from the environment. -/
structure GhConfig where
  owner : String
  repo : String
deriving DecidableEq

/-- Models the POST generate-batch handler. The trailing campaign-index
deployment outcome is received and dropped in both cases, as the handler
only logs its failure. An empty error list models the undefined errors
field of the JS response. -/
def generateBatch (cfg : GhConfig) (s : ServerState) (req : BatchReq)
    (idxDeploy : Except String Unit) : BatchResp × ServerState :=
  if req.files.isEmpty then (BatchResp.badRequest "No files provided for batch processing", s)
  else if req.clientId = "" ∨ req.campaignId = "" then
    (BatchResp.badRequest "Client and Campaign are required for batch upload", s)
  else
    match s.clients.find? (fun c => c.id == req.clientId),
          (campaignsOf s req.clientId).find? (fun c => c.id == req.campaignId) with
    | some cl, some cam =>
      let ctx : BatchCtx := ⟨cl, cam, req.description, req.clientId, req.campaignId⟩
      let out := batchLoop ctx req.files s
      let resp := BatchResp.ok
        ("https://" ++ cfg.owner ++ ".github.io/" ++ cfg.repo ++ "/"
          ++ cl.slug ++ "/" ++ cam.slug ++ "/")
        out.1.length out.2.1.length out.1 out.2.1
      match idxDeploy with
      | Except.ok _ => (resp, out.2.2)
      | Except.error _ => (resp, out.2.2)
    | _, _ => (BatchResp.badRequest "Invalid client or campaign", s)

/-- Models the GET previews handler: the stored list, front first. -/
def getPreviews (s : ServerState) : List Preview := s.previews

/-! ## Operations over the server state, for the accumulation invariant -/

/-- One incoming request, with the outcome records of its effects. -/
inductive Op where
  | clientsAdd (name : String)
  | campaignsAdd (clientId name now : String)
  | prevGen (req : PreviewReq) (env : CallEnv)
  | batchGen (cfg : GhConfig) (req : BatchReq) (idx : Except String Unit)
  | previewsList
  | clientsList
  | campaignsList (clientId : String)
deriving DecidableEq

/-- The state after handling one request. -/
def applyOp (s : ServerState) : Op → ServerState
  | Op.clientsAdd n => (postClients s n).2
  | Op.campaignsAdd cid n now => (postCampaign s cid n now).2
  | Op.prevGen req env => (generatePreview s req env).2
  | Op.batchGen cfg req idx => (generateBatch cfg s req idx).2
  | Op.previewsList => s
  | Op.clientsList => s
  | Op.campaignsList _ => s

/-- The state after a sequence of requests. -/
def runOps (s : ServerState) (ops : List Op) : ServerState := ops.foldl applyOp s

/-! ## Grouping creatives by parsed size -/

/-- One grouped creative: the batch row spread together with the parsed
locale, base name and slug. -/
structure GroupedCreative where
  item : BatchOkItem
  locale : String
  baseName : String
  slug : String
deriving DecidableEq

/-- One size bucket of the campaign index. -/
structure SizeGroup where
  size : String
  width : Option Nat
  height : Option Nat
  creatives : List GroupedCreative
deriving DecidableEq

/-- The entry pushed into a bucket for one creative. -/
def augCreative (c : BatchOkItem) : GroupedCreative :=
  let p := parseCreativeName c.creativeName
  { item := c, locale := p.locale, baseName := p.baseName, slug := slugNoTrim c.creativeName }

/-- The bucket key: the rendered size label, or Other. -/
def sizeKeyOf (c : BatchOkItem) : String :=
  (parseCreativeName c.creativeName).sizeStr.getD "Other"

/-- Insert one creative into the insertion-ordered bucket map. -/
def insertCreative : List SizeGroup → BatchOkItem → List SizeGroup
  | [], c =>
    let p := parseCreativeName c.creativeName
    [{ size := sizeKeyOf c, width := p.width, height := p.height,
       creatives := [augCreative c] }]
  | g :: gs, c =>
    if g.size = sizeKeyOf c then { g with creatives := g.creatives ++ [augCreative c] } :: gs
    else g :: insertCreative gs c

/-- JS falsiness of the stored width: absent or zero. -/
def widthFalsy (w : Option Nat) : Bool := w.getD 0 == 0

/-- The sort comparator of the bucket list: buckets without a usable width
sort last, the rest by descending area. -/
def groupCmp (a b : SizeGroup) : Int :=
  if widthFalsy a.width then 1
  else if widthFalsy b.width then -1
  else (b.width.getD 0 * b.height.getD 0 : Int) - (a.width.getD 0 * a.height.getD 0 : Int)

/-- The comparator as a sorting test. -/
def groupLE (a b : SizeGroup) : Bool := decide (groupCmp a b ≤ 0)

/-- One step of the stable sort on buckets. -/
def insertByCmp (a : SizeGroup) : List SizeGroup → List SizeGroup
  | [] => [a]
  | b :: bs => if groupLE a b then a :: b :: bs else b :: insertByCmp a bs

/-- A stable sort by the comparator, modelling the host sort call: an
earlier bucket stays before a later one when the comparator ties. -/
def sortGroups : List SizeGroup → List SizeGroup
  | [] => []
  | g :: gs => insertByCmp g (sortGroups gs)

/-- Models groupCreativesBySize: fill the bucket map in input order, then
sort the bucket values. -/
def groupCreativesBySize (cs : List BatchOkItem) : List SizeGroup :=
  sortGroups (cs.foldl insertCreative [])

/-! ## Additional definitions used by single claims -/

/-- Follows the claim wording for the base name (claim C3): the input with
the matched size substring and the matched locale code removed at the
positions where they were matched, separator runs collapsed to one
underscore, edges trimmed, defaulting to Creative when empty. This is the
spec-side reading, to be compared with the implemented base name. -/
def claimBaseName (name : String) : String :=
  let cs := name.data
  let sizeR : Option (Nat × Nat) :=
    (findSizeSplit cs).map (fun p => (p.1.length, p.2.1.length + 1 + p.2.2.2.length))
  let locR : Option (Nat × Nat) :=
    (localeSearch cs).map (fun p => (p.1.length + 1, p.2.length))
  let erase := fun (l : List Char) (st len : Nat) => l.take st ++ l.drop (st + len)
  let erased :=
    match sizeR, locR with
    | some (s1, l1), some (s2, l2) =>
      if s1 ≤ s2 then erase (erase cs s2 l2) s1 l1 else erase (erase cs s1 l1) s2 l2
    | some (s1, l1), none => erase cs s1 l1
    | none, some (s2, l2) => erase cs s2 l2
    | none, none => cs
  let t := trimSeps (squashSepsU false erased)
  if t.isEmpty then "Creative" else String.mk t

/-- The amended base-name computation for claim C3: the first occurrence
of the matched size string is removed, then the first ignore-case
occurrence of the matched locale code optionally preceded by one
separator is removed, wherever in the name these occurrences sit; then
separator runs collapse to one underscore, edge runs are trimmed, and the
empty result defaults to Creative. -/
def amendedBaseName (name : String) : String :=
  let cs := name.data
  let b1 := match findSizeSplit cs with
    | some (_, ds1, x, ds2) => removeFirstOcc (ds1 ++ [x] ++ ds2) cs
    | none => cs
  let b2 := match localeSearch cs with
    | some (_, g) => removeLocFirst g b1
    | none => b1
  let b3 := trimSeps (squashSepsU false b2)
  if b3.isEmpty then "Creative" else String.mk b3

/-- The error row of a batch iteration, when there is one. -/
def errPart {α : Type} : Except BatchErrItem α → Option BatchErrItem
  | Except.error e => some e
  | Except.ok _ => none

/-- A six-entry demonstration archive: a directory, a hidden file, a
resource-fork entry, and three ordinary files. -/
def demoEntries : List ZipEntry :=
  [⟨"assets/", true, "", ""⟩,
   ⟨".DS_Store", false, "ZHM=", "ds"⟩,
   ⟨"__MACOSX/._banner_300x250.png", false, "Zm8=", "fork"⟩,
   ⟨"index.html", false, "aGk=", "hello html"⟩,
   ⟨"styles.css", false, "Y3M=", "body text"⟩,
   ⟨"banner_300x250.png", false, "cG5n", "raw png bytes"⟩]

/-! # Theorems -/

/-- C1: extractZip yields exactly one record per archive entry that
survives the filter (not a directory, base name not starting with a dot,
no macOS resource-fork marker in the path), in archive order; it fails
with the EmptyArchive error exactly when no entry survives, so every
successful extraction is non-empty with length the survivor count. -/
theorem extractZip_per_entry (entries : List ZipEntry) :
    ((∃ msg, extractZip entries = Except.error msg) ↔ entries.filter keepEntry = []) ∧
    (∀ files, extractZip entries = Except.ok files →
      files = (entries.filter keepEntry).map mkFileRecord ∧
      files.length = (entries.filter keepEntry).length ∧ files ≠ []) := by
  by_cases h : entries.filter keepEntry = []
  · have he : extractZip entries = Except.error emptyArchiveMsg := by
      unfold extractZip
      simp [h]
    refine ⟨⟨fun _ => h, fun _ => ⟨emptyArchiveMsg, he⟩⟩, ?_⟩
    intro files hf
    rw [he] at hf
    exact absurd hf (by simp)
  · have hok : extractZip entries = Except.ok ((entries.filter keepEntry).map mkFileRecord) := by
      unfold extractZip
      simp [List.isEmpty_iff, h]
    refine ⟨⟨?_, fun hh => absurd hh h⟩, ?_⟩
    · rintro ⟨msg, hm⟩
      rw [hok] at hm
      exact absurd hm (by simp)
    · intro files hf
      rw [hok] at hf
      injection hf with hfe
      subst hfe
      refine ⟨rfl, by simp, ?_⟩
      simp only [ne_eq, List.map_eq_nil_iff]
      exact h

/-- C1 witness: on the demonstration archive the extraction succeeds, the
output is the record list of the three survivors, and it is non-empty. -/
theorem extractZip_per_entry_witness :
    extractZip demoEntries = Except.ok ((demoEntries.filter keepEntry).map mkFileRecord) ∧
    ((demoEntries.filter keepEntry).map mkFileRecord).length = 3 ∧
    ((demoEntries.filter keepEntry).map mkFileRecord) ≠ [] := by
  have h := (extractZip_per_entry demoEntries).2
    ((demoEntries.filter keepEntry).map mkFileRecord) (by decide)
  exact ⟨by decide, by decide, h.2.2⟩

/-- C5: a kept entry is emitted with base64 encoding and the base64
content exactly when its lower-cased extension is in the fixed binary
allow-list, and with utf-8 encoding and the text content otherwise; the
html, css and png scenario produces two text records and one base64
record. -/
theorem binary_by_extension :
    (∀ e : ZipEntry,
      ((mkFileRecord e).encoding = "base64" ↔ extLower e ∈ binaryExtensions) ∧
      ((mkFileRecord e).encoding = "base64" → (mkFileRecord e).content = e.dataBase64) ∧
      ((mkFileRecord e).encoding = "utf-8" ↔ extLower e ∉ binaryExtensions) ∧
      ((mkFileRecord e).encoding = "utf-8" → (mkFileRecord e).content = e.dataText)) ∧
    ((extractZip [⟨"index.html", false, "aGk=", "hello html"⟩,
                  ⟨"styles.css", false, "Y3M=", "body text"⟩,
                  ⟨"banner_300x250.png", false, "cG5n", "raw png bytes"⟩]).map
        (fun l => l.map (fun r => r.encoding)) =
      Except.ok ["utf-8", "utf-8", "base64"]) := by
  constructor
  · intro e
    by_cases hb : isBinaryEntry e
    · have hm : extLower e ∈ binaryExtensions := by
        have hb2 := hb
        unfold isBinaryEntry List.contains at hb2
        exact List.elem_iff.mp hb2
      simp [mkFileRecord, hb, hm]
    · have hm : extLower e ∉ binaryExtensions := by
        intro hmem
        exact hb (by unfold isBinaryEntry List.contains; exact List.elem_iff.mpr hmem)
      simp [mkFileRecord, hb, hm]
  · decide

/-- C5 witness: the png entry of the scenario is classified binary and
carries the base64 content. -/
theorem binary_by_extension_witness :
    (mkFileRecord ⟨"banner_300x250.png", false, "cG5n", "raw png bytes"⟩).encoding = "base64" ∧
    (mkFileRecord ⟨"banner_300x250.png", false, "cG5n", "raw png bytes"⟩).content = "cG5n" := by
  have h := binary_by_extension.1 ⟨"banner_300x250.png", false, "cG5n", "raw png bytes"⟩
  have he : (mkFileRecord ⟨"banner_300x250.png", false, "cG5n", "raw png bytes"⟩).encoding
      = "base64" := h.1.mpr (by decide)
  exact ⟨he, h.2.1 he⟩

/-- C2: evaluation of the parser at the canonical failing input. For
banner_300x250_EN-US the code returns width 300 and height 250 as the
claim states, but locale EN instead of EN-US: the separator-bounded
locale pattern backtracks from the optional second code to the bare
two-letter code followed by the hyphen, so the end-anchored fallback that
would capture EN-US is never consulted. -/
theorem parse_at_banner_300x250_EN_US :
    parseCreativeName "banner_300x250_EN-US" =
      { width := some 300, height := some 250, locale := "EN",
        baseName := "banner_US", sizeStr := some "300×250" } ∧
    (parseCreativeName "banner_300x250_EN-US").locale ≠ "EN-US" := by
  exact ⟨by decide, by decide⟩

/-- C3 counterexample: on en_banner_22x33_EN_v2 the implemented base name
is banner_EN_v2, while removing the matched size and the matched locale
occurrence as the claim describes gives en_banner_v2: the code removes
the first ignore-case occurrence of the locale code, which here is the
word en at the start of the name, not the matched code near the end. -/
theorem baseName_claim_counterexample :
    (parseCreativeName "en_banner_22x33_EN_v2").baseName = "banner_EN_v2" ∧
    claimBaseName "en_banner_22x33_EN_v2" = "en_banner_v2" ∧
    (parseCreativeName "en_banner_22x33_EN_v2").baseName ≠
      claimBaseName "en_banner_22x33_EN_v2" := by
  exact ⟨by decide, by decide, by decide⟩

/-- C3 amended: the base name equals the input with the first occurrence
of the matched size string removed and the first ignore-case occurrence
of the matched locale code, optionally preceded by one separator, removed
(an occurrence that need not be the matched one), separator runs
collapsed to a single underscore, leading and trailing separator runs
trimmed, and Creative exactly when that result is empty. -/
theorem baseName_amended_eq (name : String) :
    (parseCreativeName name).baseName = amendedBaseName name := rfl

/-! ## Lemmas towards the idempotence of sanitizePath -/

/-- Two adjacent output positions are never both hyphens. -/
def NotDD (a b : Char) : Prop := ¬(a = '-' ∧ b = '-')

/-- The head, when present, is not a hyphen. -/
def headOk : List Char → Prop
  | [] => True
  | c :: _ => c ≠ '-'

/-- The last element, when present, is not a hyphen. -/
def lastOk (cs : List Char) : Prop := headOk cs.reverse

theorem sanChar_allowed (c : Char) : allowedSanChar (sanChar c) = true := by
  unfold sanChar
  by_cases h : allowedSanChar c = true
  · simp [h]
  · simp [h]
    decide

theorem allowed_lowerC_fix {c : Char} (h : allowedSanChar c = true) : lowerC c = c := by
  unfold allowedSanChar isLowerAlpha isDigitC at h
  simp only [Bool.or_eq_true, decide_eq_true_eq, beq_iff_eq] at h
  unfold lowerC
  rcases h with (((h | h) | h) | h) | h
  · rw [if_neg (by omega)]
  · rw [if_neg (by omega)]
  · subst h; rfl
  · subst h; rfl
  · subst h; rfl

theorem allowed_sanChar_fix {c : Char} (h : allowedSanChar c = true) : sanChar c = c := by
  simp [sanChar, h]

theorem map_fix {f : Char → Char} : ∀ l : List Char, (∀ c ∈ l, f c = c) → l.map f = l := by
  intro l
  induction l with
  | nil => intro _; rfl
  | cons a as ih =>
    intro h
    simp only [List.map_cons]
    rw [h a (by simp), ih (fun x hx => h x (by simp [hx]))]

theorem mem_squashDashes : ∀ (b : Bool) (cs : List Char) (c : Char),
    c ∈ squashDashes b cs → c ∈ cs := by
  intro b cs
  induction cs generalizing b with
  | nil => intro c h; simp [squashDashes] at h
  | cons a as ih =>
    intro c h
    unfold squashDashes at h
    by_cases ha : a = '-'
    · subst ha
      rw [if_pos rfl] at h
      cases b with
      | true => exact List.mem_cons_of_mem _ (ih true c h)
      | false =>
        simp only [Bool.false_eq_true, if_false] at h
        rcases List.mem_cons.mp h with h | h
        · subst h; exact List.mem_cons_self _ _
        · exact List.mem_cons_of_mem _ (ih true c h)
    · rw [if_neg ha] at h
      rcases List.mem_cons.mp h with h | h
      · subst h; exact List.mem_cons_self _ _
      · exact List.mem_cons_of_mem _ (ih false c h)

theorem squash_true_headOk : ∀ cs : List Char, headOk (squashDashes true cs) := by
  intro cs
  induction cs with
  | nil => trivial
  | cons a as ih =>
    unfold squashDashes
    by_cases ha : a = '-'
    · simpa [ha] using ih
    · simp only [if_neg ha]
      exact ha

theorem squash_chain : ∀ (cs : List Char) (b : Bool),
    List.Chain' NotDD (squashDashes b cs) := by
  intro cs
  induction cs with
  | nil => intro b; simp [squashDashes]
  | cons a as ih =>
    intro b
    unfold squashDashes
    by_cases ha : a = '-'
    · subst ha
      rw [if_pos rfl]
      cases b with
      | true => exact ih true
      | false =>
        simp only [Bool.false_eq_true, if_false]
        rw [List.chain'_cons']
        refine ⟨?_, ih true⟩
        intro y hy
        have hh := squash_true_headOk as
        cases hsq : squashDashes true as with
        | nil => rw [hsq] at hy; cases hy
        | cons z zs =>
          rw [hsq] at hy
          simp only [List.head?_cons, Option.mem_some_iff] at hy
          subst hy
          rw [hsq] at hh
          exact fun hcon => hh hcon.2
    · rw [if_neg ha]
      rw [List.chain'_cons']
      exact ⟨fun y _ => fun hcon => ha hcon.1, ih false⟩

theorem squash_id : ∀ cs : List Char, List.Chain' NotDD cs →
    squashDashes false cs = cs ∧ (headOk cs → squashDashes true cs = cs) := by
  intro cs
  induction cs with
  | nil => intro _; exact ⟨rfl, fun _ => rfl⟩
  | cons a as ih =>
    intro h
    rw [List.chain'_cons'] at h
    obtain ⟨h1, h2⟩ := h
    have iha := ih h2
    by_cases ha : a = '-'
    · subst ha
      have hok : headOk as := by
        cases as with
        | nil => trivial
        | cons z zs => exact fun hz => h1 z rfl ⟨rfl, hz⟩
      constructor
      · show squashDashes false ('-' :: as) = '-' :: as
        unfold squashDashes
        rw [if_pos rfl]
        simp only [Bool.false_eq_true, if_false]
        rw [iha.2 hok]
      · intro hcontra
        exact absurd rfl hcontra
    · constructor
      · unfold squashDashes
        rw [if_neg ha, iha.1]
      · intro _
        unfold squashDashes
        rw [if_neg ha, iha.1]

theorem dropLeadDash_headOk {cs : List Char} (h : List.Chain' NotDD cs) :
    headOk (dropLeadDash cs) := by
  cases cs with
  | nil => trivial
  | cons a as =>
    simp only [dropLeadDash]
    by_cases ha : a = '-'
    · subst ha
      rw [if_pos rfl]
      rw [List.chain'_cons'] at h
      cases as with
      | nil => trivial
      | cons z zs => exact fun hz => h.1 z rfl ⟨rfl, hz⟩
    · rw [if_neg ha]
      exact ha

theorem dropLeadDash_chain {cs : List Char} (h : List.Chain' NotDD cs) :
    List.Chain' NotDD (dropLeadDash cs) := by
  cases cs with
  | nil => exact h
  | cons a as =>
    simp only [dropLeadDash]
    by_cases ha : a = '-'
    · rw [if_pos ha]
      exact (List.chain'_cons'.mp h).2
    · rwa [if_neg ha]

theorem dropLeadDash_id {cs : List Char} (h : headOk cs) : dropLeadDash cs = cs := by
  cases cs with
  | nil => rfl
  | cons a as =>
    simp only [dropLeadDash]
    rw [if_neg h]

theorem dropLeadDash_mem {cs : List Char} {c : Char} (h : c ∈ dropLeadDash cs) : c ∈ cs := by
  cases cs with
  | nil => exact h
  | cons a as =>
    simp only [dropLeadDash] at h
    by_cases ha : a = '-'
    · rw [if_pos ha] at h; exact List.mem_cons_of_mem a h
    · rwa [if_neg ha] at h

theorem dropLeadDash_cases (l : List Char) : dropLeadDash l = l ∨ dropLeadDash l = l.tail := by
  cases l with
  | nil => exact Or.inl rfl
  | cons a as =>
    simp only [dropLeadDash]
    by_cases ha : a = '-'
    · exact Or.inr (by rw [if_pos ha]; rfl)
    · exact Or.inl (by rw [if_neg ha])

theorem chain_reverse {cs : List Char} (h : List.Chain' NotDD cs) :
    List.Chain' NotDD cs.reverse := by
  rw [List.chain'_reverse]
  exact h.imp (fun _ _ hab hc => hab ⟨hc.2, hc.1⟩)

theorem dropTailDash_chain {cs : List Char} (h : List.Chain' NotDD cs) :
    List.Chain' NotDD (dropTailDash cs) := by
  unfold dropTailDash
  exact chain_reverse (dropLeadDash_chain (chain_reverse h))

theorem dropTailDash_lastOk {cs : List Char} (h : List.Chain' NotDD cs) :
    lastOk (dropTailDash cs) := by
  unfold dropTailDash lastOk
  rw [List.reverse_reverse]
  exact dropLeadDash_headOk (chain_reverse h)

theorem dropTailDash_id {cs : List Char} (h : lastOk cs) : dropTailDash cs = cs := by
  unfold dropTailDash
  rw [dropLeadDash_id h, List.reverse_reverse]

theorem dropTailDash_mem {cs : List Char} {c : Char} (h : c ∈ dropTailDash cs) : c ∈ cs := by
  unfold dropTailDash at h
  rw [List.mem_reverse] at h
  have h2 := dropLeadDash_mem h
  rwa [List.mem_reverse] at h2

theorem headOk_dropLast {cs : List Char} (h : headOk cs) : headOk cs.dropLast := by
  cases cs with
  | nil => trivial
  | cons a as =>
    cases as with
    | nil => trivial
    | cons b bs => exact h

theorem dropTailDash_headOk {cs : List Char} (h : headOk cs) :
    headOk (dropTailDash cs) := by
  rcases dropLeadDash_cases cs.reverse with hc | hc
  · unfold dropTailDash
    rw [hc, List.reverse_reverse]
    exact h
  · unfold dropTailDash
    rw [hc, List.tail_reverse, List.reverse_reverse]
    exact headOk_dropLast h

theorem sanitizeChars_fix {cs : List Char}
    (hall : ∀ c ∈ cs, allowedSanChar c = true)
    (hch : List.Chain' NotDD cs) (hh : headOk cs) (hl : lastOk cs) :
    sanitizeChars cs = cs := by
  unfold sanitizeChars
  rw [map_fix cs (fun c hc => allowed_lowerC_fix (hall c hc)),
      map_fix cs (fun c hc => allowed_sanChar_fix (hall c hc)),
      (squash_id cs hch).1, dropLeadDash_id hh, dropTailDash_id hl]

theorem sanitizeChars_props (cs : List Char) :
    (∀ c ∈ sanitizeChars cs, allowedSanChar c = true) ∧
    List.Chain' NotDD (sanitizeChars cs) ∧
    headOk (sanitizeChars cs) ∧ lastOk (sanitizeChars cs) := by
  unfold sanitizeChars
  have hallM : ∀ c ∈ (cs.map lowerC).map sanChar, allowedSanChar c = true := by
    intro c hc
    rcases List.mem_map.mp hc with ⟨d, _, rfl⟩
    exact sanChar_allowed d
  have hsq : List.Chain' NotDD (squashDashes false ((cs.map lowerC).map sanChar)) :=
    squash_chain _ false
  refine ⟨?_, ?_, ?_, ?_⟩
  · intro c hc
    exact hallM c (mem_squashDashes _ _ _ (dropLeadDash_mem (dropTailDash_mem hc)))
  · exact dropTailDash_chain (dropLeadDash_chain hsq)
  · exact dropTailDash_headOk (dropLeadDash_headOk hsq)
  · exact dropTailDash_lastOk (dropLeadDash_chain hsq)

/-- C4: sanitizePath is idempotent: lower-casing, replacing every
character outside the kept class by a hyphen, collapsing hyphen runs and
trimming edge hyphens, applied twice, equals one application. -/
theorem sanitizePath_idem (x : String) :
    sanitizePath (sanitizePath x) = sanitizePath x := by
  show String.mk (sanitizeChars (sanitizeChars x.data)) = String.mk (sanitizeChars x.data)
  have hp := sanitizeChars_props x.data
  exact congrArg String.mk (sanitizeChars_fix hp.1 hp.2.1 hp.2.2.1 hp.2.2.2)

/-- C8: client creation derives the id by lower-casing the name,
collapsing runs outside letters and digits to single hyphens and trimming
edge hyphens; the request is rejected as a duplicate exactly when a
client with that id already exists. Both Acme spellings normalize to
acme-corp, so the second creation attempt is rejected. -/
theorem clients_slug_dedup :
    (jsSlug "Acme Corp" = "acme-corp" ∧ jsSlug "ACME CORP!!" = "acme-corp") ∧
    (∀ s name, name ≠ "" →
      (((postClients s name).1 = ClientResp.err "Client already exists") ↔
        ∃ c ∈ s.clients, c.id = jsSlug name) ∧
      ((¬ ∃ c ∈ s.clients, c.id = jsSlug name) →
        (postClients s name).1 =
          ClientResp.ok { id := jsSlug name, name := name, slug := jsSlug name })) ∧
    ((postClients (postClients initialState "Acme Corp").2 "ACME CORP!!").1 =
      ClientResp.err "Client already exists") := by
  refine ⟨⟨by decide, by decide⟩, ?_, by decide⟩
  intro s name hn
  have hex : (s.clients.any (fun c => c.id == jsSlug name) = true) ↔
      ∃ c ∈ s.clients, c.id = jsSlug name := by
    simp
  by_cases hd : s.clients.any (fun c => c.id == jsSlug name) = true
  · have hres : (postClients s name).1 = ClientResp.err "Client already exists" := by
      simp [postClients, hn, hd]
    refine ⟨?_, ?_⟩
    · rw [hres]
      exact ⟨fun _ => hex.mp hd, fun _ => rfl⟩
    · intro hno
      exact absurd (hex.mp hd) hno
  · have hres : (postClients s name).1 =
        ClientResp.ok { id := jsSlug name, name := name, slug := jsSlug name } := by
      simp [postClients, hn, hd]
    refine ⟨?_, fun _ => hres⟩
    rw [hres]
    constructor
    · intro h
      exact absurd h (by simp)
    · intro hexx
      exact absurd (hex.mpr hexx) hd

/-- C8 witness: creating Acme Corp on the seeded state succeeds with the
derived id acme-corp. -/
theorem clients_slug_dedup_witness :
    (postClients initialState "Acme Corp").1 =
      ClientResp.ok { id := "acme-corp", name := "Acme Corp", slug := "acme-corp" } := by
  have h := (clients_slug_dedup.2.1 initialState "Acme Corp" (by decide)).2 (by decide)
  have hs : jsSlug "Acme Corp" = "acme-corp" := by decide
  rw [h, hs]

/-- C10: the client-creation route is atomic on the in-memory state: an
error response leaves the whole state untouched, and a success appends
exactly the one new client at the tail of the client list, with previews
and campaigns unchanged. -/
theorem clients_atomic (s : ServerState) (name : String) :
    (∀ msg, (postClients s name).1 = ClientResp.err msg → (postClients s name).2 = s) ∧
    (∀ c, (postClients s name).1 = ClientResp.ok c →
      (postClients s name).2.clients = s.clients ++ [c] ∧
      (postClients s name).2.previews = s.previews ∧
      (postClients s name).2.campaigns = s.campaigns) := by
  by_cases hn : name = ""
  · have hres : postClients s name = (ClientResp.err "Client name is required", s) := by
      simp [postClients, hn]
    rw [hres]
    exact ⟨fun _ _ => rfl, fun c hc => absurd hc (by simp)⟩
  · by_cases hd : s.clients.any (fun c => c.id == jsSlug name) = true
    · have hres : postClients s name = (ClientResp.err "Client already exists", s) := by
        simp [postClients, hn, hd]
      rw [hres]
      exact ⟨fun _ _ => rfl, fun c hc => absurd hc (by simp)⟩
    · have hres : postClients s name =
          (ClientResp.ok { id := jsSlug name, name := name, slug := jsSlug name },
           { s with clients :=
              s.clients ++ [{ id := jsSlug name, name := name, slug := jsSlug name }] }) := by
        simp [postClients, hn, hd]
      rw [hres]
      refine ⟨fun msg hmsg => absurd hmsg (by simp), ?_⟩
      intro c hc
      simp only [ClientResp.ok.injEq] at hc
      subst hc
      exact ⟨rfl, rfl, rfl⟩

/-- C10 witness: the successful Acme Corp creation appends exactly one
client to the seeded list and touches nothing else. -/
theorem clients_atomic_witness :
    (postClients initialState "Acme Corp").2.clients =
      initialState.clients ++ [{ id := "acme-corp", name := "Acme Corp", slug := "acme-corp" }] ∧
    (postClients initialState "Acme Corp").2.previews = initialState.previews := by
  have h := (clients_atomic initialState "Acme Corp").2
    { id := "acme-corp", name := "Acme Corp", slug := "acme-corp" } (by decide)
  exact ⟨h.1, h.2.1⟩

/-! ## Lemmas on how each handler touches the preview list -/

theorem postClients_previews (s : ServerState) (n : String) :
    (postClients s n).2.previews = s.previews := by
  by_cases hn : n = ""
  · simp [postClients, hn]
  · by_cases hd : s.clients.any (fun c => c.id == jsSlug n) = true
    · simp [postClients, hn, hd]
    · simp [postClients, hn, hd]

theorem setCampaigns_previews (s : ServerState) (cid : String) (l : List Campaign) :
    (setCampaigns s cid l).previews = s.previews := by
  unfold setCampaigns
  split
  · rfl
  · rfl

theorem postCampaign_previews (s : ServerState) (cid n now : String) :
    (postCampaign s cid n now).2.previews = s.previews := by
  by_cases hn : n = ""
  · simp [postCampaign, hn]
  · by_cases hd : (campaignsOf s cid).any (fun c => c.slug == jsSlug n) = true
    · simp [postCampaign, hn, hd]
    · simp [postCampaign, hn, hd, setCampaigns_previews]

theorem generatePreview_previews (s : ServerState) (req : PreviewReq) (env : CallEnv) :
    ∃ added, (generatePreview s req env).2.previews = added ++ s.previews := by
  unfold generatePreview
  split
  · exact ⟨[], rfl⟩
  · split
    · exact ⟨[], rfl⟩
    · split
      · exact ⟨[], rfl⟩
      · exact ⟨[_], rfl⟩

theorem batchLoop_previews (ctx : BatchCtx) :
    ∀ (jobs : List (FileRef × FileEnv)) (s : ServerState),
      ∃ added, (batchLoop ctx jobs s).2.2.previews = added ++ s.previews := by
  intro jobs
  induction jobs with
  | nil => intro s; exact ⟨[], rfl⟩
  | cons j rest ih =>
    intro s
    unfold batchLoop
    cases hj : jobOutcome ctx j with
    | error e =>
      simp only [hj]
      exact ih s
    | ok rp =>
      obtain ⟨r, p⟩ := rp
      simp only [hj]
      obtain ⟨added, ha⟩ := ih { s with previews := p :: s.previews }
      refine ⟨added ++ [p], ?_⟩
      rw [List.append_assoc]
      simpa using ha

theorem generateBatch_previews (cfg : GhConfig) (s : ServerState) (req : BatchReq)
    (idx : Except String Unit) :
    ∃ added, (generateBatch cfg s req idx).2.previews = added ++ s.previews := by
  unfold generateBatch
  split
  · exact ⟨[], rfl⟩
  · split
    · exact ⟨[], rfl⟩
    · split
      · cases idx with
        | ok u => exact batchLoop_previews _ req.files s
        | error e => exact batchLoop_previews _ req.files s
      · exact ⟨[], rfl⟩

theorem applyOp_previews (s : ServerState) (op : Op) :
    ∃ added, (applyOp s op).previews = added ++ s.previews := by
  cases op with
  | clientsAdd n => exact ⟨[], postClients_previews s n⟩
  | campaignsAdd cid n now => exact ⟨[], postCampaign_previews s cid n now⟩
  | prevGen req env => exact generatePreview_previews s req env
  | batchGen cfg req idx => exact generateBatch_previews cfg s req idx
  | previewsList => exact ⟨[], rfl⟩
  | clientsList => exact ⟨[], rfl⟩
  | campaignsList cid => exact ⟨[], rfl⟩

theorem runOps_previews : ∀ (ops : List Op) (s : ServerState),
    ∃ added, (runOps s ops).previews = added ++ s.previews := by
  intro ops
  induction ops with
  | nil => intro s; exact ⟨[], rfl⟩
  | cons op rest ih =>
    intro s
    obtain ⟨a1, h1⟩ := applyOp_previews s op
    obtain ⟨a2, h2⟩ := ih (applyOp s op)
    refine ⟨a2 ++ a1, ?_⟩
    show (runOps (applyOp s op) rest).previews = a2 ++ a1 ++ s.previews
    rw [h2, h1, List.append_assoc]

/-- C7: a successful preview generation pushes exactly its record to the
front of the in-memory preview list; every request leaves the previously
stored records as an unchanged suffix; hence over any sequence of
requests the previews route returns the accumulated records newest
first, with every earlier snapshot an unchanged suffix of the later one. -/
theorem previews_accumulate :
    (∀ s req env url p, (generatePreview s req env).1 = PrevResp.ok url p →
      (generatePreview s req env).2.previews = p :: s.previews) ∧
    (∀ (s : ServerState) (op : Op), ∃ added, (applyOp s op).previews = added ++ s.previews) ∧
    (∀ (s : ServerState) (ops : List Op),
      ∃ added, getPreviews (runOps s ops) = added ++ getPreviews s) := by
  refine ⟨?_, applyOp_previews, fun s ops => runOps_previews ops s⟩
  intro s req env url p h
  by_cases h1 : req.fileId = "" ∨ req.creativeName = ""
  · have hg : (generatePreview s req env).1 = PrevResp.badRequest
        "Missing required fields: fileId and creativeName are required" := by
      simp [generatePreview, h1]
    rw [hg] at h
    exact absurd h (by simp)
  · by_cases h2 : env.fileOnDisk = true
    · cases hp : env.pipeline with
      | error msg =>
        have hg : (generatePreview s req env).1 = PrevResp.serverErr msg := by
          simp [generatePreview, h1, h2, hp]
        rw [hg] at h
        exact absurd h (by simp)
      | ok u =>
        have hg : generatePreview s req env =
            (PrevResp.ok u (builtPreview s req env u),
             { s with previews := builtPreview s req env u :: s.previews }) := by
          simp [generatePreview, h1, h2, hp]
        rw [hg] at h
        simp only [PrevResp.ok.injEq] at h
        rw [hg, h.2]
    · have hg : (generatePreview s req env).1 = PrevResp.notFound "Uploaded file not found" := by
        simp [generatePreview, h1, h2]
      rw [hg] at h
      exact absurd h (by simp)

/-- C7 witness: one successful generation on the seeded state stores
exactly its record at the front of the empty preview list. -/
theorem previews_accumulate_witness :
    (generatePreview initialState ⟨"file-1", "banner_300x250_EN", "", "", "", "", ""⟩
        ⟨true, Except.ok "https://o.github.io/r/banner-300x250-en/", "uuid-1", "t1"⟩).2.previews =
      builtPreview initialState ⟨"file-1", "banner_300x250_EN", "", "", "", "", ""⟩
        ⟨true, Except.ok "https://o.github.io/r/banner-300x250-en/", "uuid-1", "t1"⟩
        "https://o.github.io/r/banner-300x250-en/" :: initialState.previews := by
  exact previews_accumulate.1 initialState
    ⟨"file-1", "banner_300x250_EN", "", "", "", "", ""⟩
    ⟨true, Except.ok "https://o.github.io/r/banner-300x250-en/", "uuid-1", "t1"⟩
    "https://o.github.io/r/banner-300x250-en/"
    (builtPreview initialState ⟨"file-1", "banner_300x250_EN", "", "", "", "", ""⟩
      ⟨true, Except.ok "https://o.github.io/r/banner-300x250-en/", "uuid-1", "t1"⟩
      "https://o.github.io/r/banner-300x250-en/")
    (by decide)

/-! ## Lemmas on the batch loop rows -/

theorem batchLoop_rows (ctx : BatchCtx) :
    ∀ (jobs : List (FileRef × FileEnv)) (s : ServerState),
      (batchLoop ctx jobs s).1 =
        jobs.filterMap (fun j => (jobOutcome ctx j).toOption.map Prod.fst) ∧
      (batchLoop ctx jobs s).2.1 = jobs.filterMap (fun j => errPart (jobOutcome ctx j)) ∧
      (batchLoop ctx jobs s).1.length + (batchLoop ctx jobs s).2.1.length = jobs.length := by
  intro jobs
  induction jobs with
  | nil => intro s; exact ⟨rfl, rfl, rfl⟩
  | cons j rest ih =>
    intro s
    unfold batchLoop
    cases hj : jobOutcome ctx j with
    | error e =>
      obtain ⟨ih1, ih2, ih3⟩ := ih s
      have ht : (jobOutcome ctx j).toOption.map Prod.fst = (none : Option BatchOkItem) := by
        rw [hj]; rfl
      have he : errPart (jobOutcome ctx j) = some e := by rw [hj]; rfl
      rw [@List.filterMap_cons_none _ _
            (fun jj => ((jobOutcome ctx jj).toOption.map Prod.fst)) j rest ht,
          @List.filterMap_cons_some _ _
            (fun jj => errPart (jobOutcome ctx jj)) j rest e he]
      simp only [hj]
      refine ⟨ih1, ?_, ?_⟩
      · rw [ih2]
      · simp only [List.length_cons]
        omega
    | ok rp =>
      obtain ⟨r, p⟩ := rp
      obtain ⟨ih1, ih2, ih3⟩ := ih { s with previews := p :: s.previews }
      have ht : (jobOutcome ctx j).toOption.map Prod.fst = some r := by rw [hj]; rfl
      have he : errPart (jobOutcome ctx j) = (none : Option BatchErrItem) := by
        rw [hj]; rfl
      rw [@List.filterMap_cons_some _ _
            (fun jj => ((jobOutcome ctx jj).toOption.map Prod.fst)) j rest r ht,
          @List.filterMap_cons_none _ _
            (fun jj => errPart (jobOutcome ctx jj)) j rest he]
      simp only [hj]
      refine ⟨?_, ih2, ?_⟩
      · rw [ih1]
      · simp only [List.length_cons]
        omega

theorem generateBatch_same (cfg : GhConfig) (s : ServerState) (req : BatchReq)
    (d1 d2 : Except String Unit) :
    generateBatch cfg s req d1 = generateBatch cfg s req d2 := by
  unfold generateBatch
  split
  · rfl
  · split
    · rfl
    · split
      · cases d1 <;> cases d2 <;> rfl
      · rfl

/-- C6: batch processing isolates failures: each input file yields exactly
its own success row or error row, independent of the other files and of
the threaded state, so the two row lists together account for every file;
when the request passes validation the response is the success shape
carrying both lists; and the outcome of the trailing campaign-index
deployment changes neither the response nor the final state. -/
theorem batch_isolation :
    (∀ (ctx : BatchCtx) (jobs : List (FileRef × FileEnv)) (s : ServerState),
      (batchLoop ctx jobs s).1 =
        jobs.filterMap (fun j => (jobOutcome ctx j).toOption.map Prod.fst) ∧
      (batchLoop ctx jobs s).2.1 = jobs.filterMap (fun j => errPart (jobOutcome ctx j)) ∧
      (batchLoop ctx jobs s).1.length + (batchLoop ctx jobs s).2.1.length = jobs.length) ∧
    (∀ cfg s req d1 d2, generateBatch cfg s req d1 = generateBatch cfg s req d2) ∧
    (∀ cfg s req idx cl cam, req.files ≠ [] → req.clientId ≠ "" → req.campaignId ≠ "" →
      s.clients.find? (fun c => c.id == req.clientId) = some cl →
      (campaignsOf s req.clientId).find? (fun c => c.id == req.campaignId) = some cam →
      ∃ url rs es, (generateBatch cfg s req idx).1 = BatchResp.ok url rs.length es.length rs es ∧
        rs.length + es.length = req.files.length) := by
  refine ⟨fun ctx jobs s => batchLoop_rows ctx jobs s, generateBatch_same, ?_⟩
  intro cfg s req idx cl cam hne hcid hcam hfc hfk
  have hnee : req.files.isEmpty = false := by
    cases hfiles : req.files with
    | nil => exact absurd hfiles hne
    | cons a as => rfl
  refine ⟨"https://" ++ cfg.owner ++ ".github.io/" ++ cfg.repo ++ "/"
      ++ cl.slug ++ "/" ++ cam.slug ++ "/",
    (batchLoop ⟨cl, cam, req.description, req.clientId, req.campaignId⟩ req.files s).1,
    (batchLoop ⟨cl, cam, req.description, req.clientId, req.campaignId⟩ req.files s).2.1,
    ?_, ?_⟩
  · cases idx with
    | ok u => simp [generateBatch, hnee, hcid, hcam, hfc, hfk]
    | error e => simp [generateBatch, hnee, hcid, hcam, hfc, hfk]
  · exact (batchLoop_rows ⟨cl, cam, req.description, req.clientId, req.campaignId⟩
      req.files s).2.2

/-- The seeded state extended with the Acme client and its Summer
campaign, for the batch witness. -/
def demoBatchState : ServerState :=
  (postCampaign (postClients initialState "Acme Corp").2 "acme-corp" "Summer" "t0").2

/-- A three-file batch request: one deployable file, one whose pipeline
fails, one missing on disk. -/
def demoBatchReq : BatchReq :=
  { files :=
      [(⟨"f1", "good_300x250.zip"⟩, ⟨true, Except.ok "u1", "id1", "t1"⟩),
       (⟨"f2", "bad_728x90.zip"⟩, ⟨true, Except.error "Failed to deploy to GitHub: boom", "id2", "t2"⟩),
       (⟨"f3", "missing.zip"⟩, ⟨false, Except.ok "unused", "id3", "t3"⟩)],
    description := "", clientId := "acme-corp", campaignId := "acme-corp-summer" }

/-- C6 witness: on the three-file request with a failing index deployment
the response is still the success shape and the rows cover all three
files. -/
theorem batch_isolation_witness :
    (∃ url rs es,
      (generateBatch ⟨"o", "r"⟩ demoBatchState demoBatchReq (Except.error "index fail")).1 =
        BatchResp.ok url rs.length es.length rs es ∧
      rs.length + es.length = demoBatchReq.files.length) ∧
    generateBatch ⟨"o", "r"⟩ demoBatchState demoBatchReq (Except.error "index fail") =
      generateBatch ⟨"o", "r"⟩ demoBatchState demoBatchReq (Except.ok ()) := by
  constructor
  · exact batch_isolation.2.2 ⟨"o", "r"⟩ demoBatchState demoBatchReq (Except.error "index fail")
      ⟨"acme-corp", "Acme Corp", "acme-corp"⟩
      ⟨"acme-corp-summer", "Summer", "summer", "acme-corp", "t0"⟩
      (by decide) (by decide) (by decide) (by decide) (by decide)
  · exact batch_isolation.2.1 ⟨"o", "r"⟩ demoBatchState demoBatchReq
      (Except.error "index fail") (Except.ok ())

/-! ## Lemmas on the size grouping -/

theorem insertCreative_flat (c : BatchOkItem) :
    ∀ gs : List SizeGroup,
      List.Perm (((insertCreative gs c).map (fun g => g.creatives)).flatten)
        (((gs.map (fun g => g.creatives)).flatten) ++ [augCreative c]) := by
  intro gs
  induction gs with
  | nil =>
    simp [insertCreative]
  | cons g rest ih =>
    unfold insertCreative
    by_cases hk : g.size = sizeKeyOf c
    · rw [if_pos hk]
      simp only [List.map_cons, List.flatten_cons]
      rw [List.append_assoc, List.append_assoc]
      exact List.Perm.append_left g.creatives List.perm_append_comm
    · rw [if_neg hk]
      simp only [List.map_cons, List.flatten_cons]
      rw [List.append_assoc]
      exact List.Perm.append_left g.creatives ih

theorem foldl_insert_flat (cs : List BatchOkItem) :
    ∀ acc : List SizeGroup,
      List.Perm (((cs.foldl insertCreative acc).map (fun g => g.creatives)).flatten)
        (((acc.map (fun g => g.creatives)).flatten) ++ cs.map augCreative) := by
  induction cs with
  | nil => intro acc; simp
  | cons c rest ih =>
    intro acc
    simp only [List.foldl_cons, List.map_cons]
    refine (ih (insertCreative acc c)).trans ?_
    refine ((insertCreative_flat c acc).append_right _).trans ?_
    rw [List.append_assoc]
    exact List.Perm.refl _

theorem insertCreative_ne (c : BatchOkItem) :
    ∀ gs : List SizeGroup, (∀ g ∈ gs, g.creatives ≠ []) →
      ∀ g ∈ insertCreative gs c, g.creatives ≠ [] := by
  intro gs
  induction gs with
  | nil =>
    intro _ g hg
    simp only [insertCreative, List.mem_singleton] at hg
    subst hg
    simp
  | cons gh rest ih =>
    intro hall g hg
    unfold insertCreative at hg
    by_cases hk : gh.size = sizeKeyOf c
    · rw [if_pos hk] at hg
      rcases List.mem_cons.mp hg with h | h
      · subst h; simp
      · exact hall g (List.mem_cons_of_mem _ h)
    · rw [if_neg hk] at hg
      rcases List.mem_cons.mp hg with h | h
      · subst h; exact hall _ (List.mem_cons_self _ _)
      · exact ih (fun x hx => hall x (List.mem_cons_of_mem _ hx)) g h

theorem foldl_insert_ne (cs : List BatchOkItem) :
    ∀ acc, (∀ g ∈ acc, g.creatives ≠ []) →
      ∀ g ∈ cs.foldl insertCreative acc, g.creatives ≠ [] := by
  induction cs with
  | nil => intro acc h; exact h
  | cons c rest ih =>
    intro acc h
    exact ih _ (insertCreative_ne c acc h)

theorem insertByCmp_perm (a : SizeGroup) :
    ∀ l, List.Perm (insertByCmp a l) (a :: l) := by
  intro l
  induction l with
  | nil => exact List.Perm.refl _
  | cons b bs ih =>
    unfold insertByCmp
    by_cases h : groupLE a b = true
    · rw [if_pos h]
    · rw [if_neg h]
      exact (ih.cons b).trans (List.Perm.swap a b bs)

theorem sortGroups_perm : ∀ l, List.Perm (sortGroups l) l := by
  intro l
  induction l with
  | nil => exact List.Perm.refl _
  | cons g gs ih =>
    unfold sortGroups
    exact (insertByCmp_perm g (sortGroups gs)).trans (ih.cons g)

/-- C9: grouping partitions its input: the rows of all buckets together
are a permutation of the input rows each spread with its parsed fields,
no bucket is empty, and the bucket sizes sum to the input length; no
creative is dropped or duplicated, however its name parses. -/
theorem grouping_partitions (cs : List BatchOkItem) :
    List.Perm (((groupCreativesBySize cs).map (fun g => g.creatives)).flatten)
      (cs.map augCreative) ∧
    (∀ g ∈ groupCreativesBySize cs, g.creatives ≠ []) ∧
    ((groupCreativesBySize cs).map (fun g => g.creatives.length)).sum = cs.length := by
  unfold groupCreativesBySize
  have hms : List.Perm (sortGroups (cs.foldl insertCreative []))
      (cs.foldl insertCreative []) := sortGroups_perm _
  have hflat : List.Perm
      (((sortGroups (cs.foldl insertCreative [])).map (fun g => g.creatives)).flatten)
      (((cs.foldl insertCreative []).map (fun g => g.creatives)).flatten) :=
    (hms.map _).flatten
  have hmain : List.Perm
      (((sortGroups (cs.foldl insertCreative [])).map (fun g => g.creatives)).flatten)
      (cs.map augCreative) := hflat.trans (by simpa using foldl_insert_flat cs [])
  refine ⟨hmain, ?_, ?_⟩
  · intro g hg
    exact foldl_insert_ne cs [] (by intro x hx; cases hx) g (hms.mem_iff.mp hg)
  · have h1 := hmain.length_eq
    rw [List.length_flatten, List.map_map, List.length_map] at h1
    exact h1

/-- A four-creative batch for the grouping witness: two share a size, one
has another size, one has no parsable size. -/
def demoItems : List BatchOkItem :=
  [⟨"f1", "a.zip", "banner_300x250_EN", "u1"⟩,
   ⟨"f2", "b.zip", "banner_728x90_DE", "u2"⟩,
   ⟨"f3", "c.zip", "plainname", "u3"⟩,
   ⟨"f4", "d.zip", "b2_300x250_FR", "u4"⟩]

/-- The top bucket produced for the four demonstration creatives. -/
def demoSizeGroup : SizeGroup :=
  { size := "300×250", width := some 300, height := some 250,
    creatives := [augCreative ⟨"f1", "a.zip", "banner_300x250_EN", "u1"⟩,
                  augCreative ⟨"f4", "d.zip", "b2_300x250_FR", "u4"⟩] }

/-- C9 witness: on the four demonstration creatives the bucket sizes sum
to four and the concrete top bucket is non-empty. -/
theorem grouping_partitions_witness :
    ((groupCreativesBySize demoItems).map (fun g => g.creatives.length)).sum =
      demoItems.length ∧
    demoSizeGroup.creatives ≠ [] := by
  refine ⟨(grouping_partitions demoItems).2.2, ?_⟩
  exact (grouping_partitions demoItems).2.1 demoSizeGroup (by decide)

end AdPreview
